import Mathlib

/-!
Verification development for the rice-shop POS front end.

The repository is a TypeScript/JavaScript point-of-sale administration app:
CRUD screens over users, products and transactions plus a derived analytics
read.  This file gives a shallow embedding of the data model and of the pure
computations the specification talks about:

* the sales aggregator (`AnalyticsService.calculateSalesByMonth`,
  `AnalyticsService.calculateTopProducts`, and the parallel `useAnalytics`
  hook) — JavaScript plain objects used as string-keyed accumulators are
  modelled as insertion-ordered association lists, and `Array.prototype.sort`
  with a comparator is modelled as a stable insertion sort;
* the role-hierarchy permission check (`Utils.hasPermission`);
* the stock classification (`Utils.getStockStatus`) and the low-stock
  threshold uses;
* `TransactionsService.create` acting on an explicit Firestore-collection
  state;
* the error handler (`ErrorHandler.handle`) and forced logout
  (`Auth.handleLogout`) acting on the global `AppState`;
* the time-expiring in-memory cache (`DataCache`), with `Date.now()` passed
  explicitly;
* the two sign-in flows (`AuthProvider.signIn` in `App.tsx` and
  `AuthService.signIn`).

JavaScript numbers that hold money amounts and quantities are modelled as
exact integers (`Int`); timestamps are modelled by their parsed calendar
components (`Date.getFullYear`/`Date.getMonth`) plus an opaque remainder.
-/

/-! ### Decimal rendering of natural numbers

Template literals such as `` `${date.getFullYear()}` `` render an integer in
decimal.  `natToCharsAux` is a fuel-indexed, structurally recursive model of
that rendering; `natToChars n` uses enough fuel for `n`. -/

/-- Decimal digit characters of `n`, most significant first, computed with
explicit fuel so the definition is structural. -/
def natToCharsAux : Nat → Nat → List Char
  | 0, _ => []
  | fuel + 1, n =>
    if n < 10 then [Nat.digitChar n]
    else natToCharsAux fuel (n / 10) ++ [Nat.digitChar (n % 10)]

/-- Decimal digit characters of `n` (the ECMAScript ToString of a
non-negative integer). -/
def natToChars (n : Nat) : List Char := natToCharsAux (n + 1) n

/-- Numeric value of a digit character. -/
def digitVal (c : Char) : Nat := c.toNat - 48

/-- Value of a digit list read back in base 10. -/
def charsVal (l : List Char) : Nat := l.foldl (fun a c => 10 * a + digitVal c) 0

theorem digitVal_digitChar : ∀ n : Nat, n < 10 → digitVal (Nat.digitChar n) = n := by
  decide

theorem charsVal_aux : ∀ (fuel n a : Nat), n < fuel →
    List.foldl (fun a c => 10 * a + digitVal c) a (natToCharsAux fuel n)
      = a * 10 ^ (natToCharsAux fuel n).length + n := by
  intro fuel
  induction fuel with
  | zero => intro n a h; omega
  | succ f ih =>
    intro n a h
    by_cases h10 : n < 10
    · simp only [natToCharsAux, if_pos h10, List.foldl_cons, List.foldl_nil,
        List.length_cons, List.length_nil, digitVal_digitChar n h10]
      ring_nf
    · have hn : 10 ≤ n := Nat.not_lt.mp h10
      have hlt : n / 10 < n := Nat.div_lt_self (by omega) (by omega)
      have hdiv : n / 10 < f := by omega
      simp only [natToCharsAux, if_neg h10, List.foldl_append, List.foldl_cons,
        List.foldl_nil, List.length_append, List.length_cons, List.length_nil,
        ih (n / 10) a hdiv, digitVal_digitChar (n % 10) (Nat.mod_lt _ (by omega))]
      rw [← Nat.div_add_mod n 10]
      ring_nf
      omega

theorem natToChars_inj {n m : Nat} (h : natToChars n = natToChars m) : n = m := by
  have h1 := charsVal_aux (n + 1) n 0 (Nat.lt_succ_self n)
  have h2 := charsVal_aux (m + 1) m 0 (Nat.lt_succ_self m)
  simp only [natToChars] at h
  rw [h] at h1
  omega

/-! ### Timestamps and month keys

A transaction's `timestamp` field is an ISO string; the aggregator parses it
with `new Date(...)` and only reads `getFullYear()` and `getMonth()`.  A
timestamp is therefore modelled by those two components plus an opaque
remainder (day, time of day, ...) so that distinct instants in the same
calendar month stay distinct. -/

/-- Parsed timestamp: `year` is `Date.getFullYear()`, `month` is the 0-based
`Date.getMonth()`, and `rest` carries the remaining instant data that the
aggregator never inspects. -/
structure DateTime where
  year : Nat
  month : Fin 12
  rest : String
  deriving DecidableEq, Repr

/-- Characters of the month component: `String(month + 1).padStart(2, '0')`. -/
def monthChars (m : Fin 12) : List Char :=
  List.replicate (2 - (natToChars (m.val + 1)).length) '0' ++ natToChars (m.val + 1)

/-- Month key of a timestamp:
`` `${date.getFullYear()}-${String(date.getMonth() + 1).padStart(2, '0')}` ``. -/
def monthKey (d : DateTime) : String :=
  ⟨natToChars d.year ++ '-' :: monthChars d.month⟩

theorem monthChars_length : ∀ m : Fin 12, (monthChars m).length = 2 := by
  decide

theorem monthChars_inj : ∀ m m' : Fin 12, monthChars m = monthChars m' → m = m' := by
  decide

/-- Two timestamps produce the same month key exactly when they lie in the
same calendar month. -/
theorem monthKey_eq_iff (d e : DateTime) :
    monthKey d = monthKey e ↔ d.year = e.year ∧ d.month = e.month := by
  constructor
  · intro h
    have hd : natToChars d.year ++ '-' :: monthChars d.month
        = natToChars e.year ++ '-' :: monthChars e.month := by
      have := congrArg String.data h
      simpa [monthKey] using this
    have hlen : ('-' :: monthChars d.month).length = ('-' :: monthChars e.month).length := by
      simp [monthChars_length]
    obtain ⟨h1, h2⟩ := List.append_inj' hd hlen
    refine ⟨natToChars_inj h1, ?_⟩
    exact monthChars_inj _ _ (List.tail_eq_of_cons_eq h2)
  · rintro ⟨hy, hm⟩
    simp [monthKey, hy, hm]

/-! ### JavaScript objects as insertion-ordered accumulators

`salesByMonth[key] = (salesByMonth[key] || 0) + v` on a plain object keeps an
existing key at its original position and appends a new key at the end;
`Object.entries` then yields the entries in that insertion order.  The
accumulator is modelled as an association list with exactly those update
semantics. -/

/-- Additive upsert: add `v` at `k`, in place if `k` is present, appended
otherwise (`obj[k] = (obj[k] || 0) + v`). -/
def upsertAdd (m : List (String × Int)) (k : String) (v : Int) : List (String × Int) :=
  match m with
  | [] => [(k, v)]
  | (k', v') :: rest =>
    if k' = k then (k', v' + v) :: rest else (k', v') :: upsertAdd rest k v

/-- Lookup in an association list (property read `obj[k]`). -/
def lookupA : List (String × Int) → String → Option Int
  | [], _ => none
  | (k', v) :: rest, k => if k' = k then some v else lookupA rest k

/-- Accumulate a list of keyed contributions into an object, left to right. -/
def accumPairs (ps : List (String × Int)) : List (String × Int) :=
  ps.foldl (fun m p => upsertAdd m p.1 p.2) []

/-- Total contribution of key `k` in a contribution list. -/
def sumVals (ps : List (String × Int)) (k : String) : Int :=
  ((ps.filter (fun p => p.1 == k)).map Prod.snd).sum

/-- Keys of an association list, in order. -/
def keysOf (m : List (String × Int)) : List String := m.map Prod.fst

theorem lookupA_upsertAdd (m : List (String × Int)) (k k' : String) (v : Int) :
    lookupA (upsertAdd m k' v) k
      = if k' = k then some ((lookupA m k).getD 0 + v) else lookupA m k := by
  induction m with
  | nil => by_cases h : k' = k <;> simp [upsertAdd, lookupA, h]
  | cons p rest ih =>
    obtain ⟨a, b⟩ := p
    by_cases hak : a = k' <;> by_cases hkk : k' = k <;>
      simp [upsertAdd, lookupA, hak, hkk, ih] <;>
      simp_all [lookupA]

theorem lookupA_accum_gen (ps : List (String × Int)) :
    ∀ (acc : List (String × Int)) (k : String),
    lookupA (ps.foldl (fun m p => upsertAdd m p.1 p.2) acc) k
      = match lookupA acc k with
        | some v => some (v + sumVals ps k)
        | none => if ps.any (fun p => p.1 == k) then some (sumVals ps k) else none := by
  induction ps with
  | nil =>
    intro acc k
    cases h : lookupA acc k <;> simp [sumVals, h]
  | cons p ps ih =>
    intro acc k
    simp only [List.foldl_cons]
    rw [ih (upsertAdd acc p.1 p.2) k, lookupA_upsertAdd]
    by_cases hpk : p.1 = k
    · have hb : (p.1 == k) = true := by simpa using hpk
      cases h : lookupA acc k <;>
        simp [h, hpk, hb, sumVals, List.filter_cons, List.any_cons] <;> ring
    · have hb : (p.1 == k) = false := by simpa using hpk
      cases h : lookupA acc k <;>
        simp [h, hpk, hb, sumVals, List.filter_cons, List.any_cons] <;>
        rw [hb, Bool.false_or]

theorem lookupA_accumPairs (ps : List (String × Int)) (k : String) :
    lookupA (accumPairs ps) k
      = if ps.any (fun p => p.1 == k) then some (sumVals ps k) else none := by
  have := lookupA_accum_gen ps [] k
  simpa [accumPairs, lookupA] using this

theorem keysOf_upsertAdd (m : List (String × Int)) (k : String) (v : Int) :
    keysOf (upsertAdd m k v)
      = if k ∈ keysOf m then keysOf m else keysOf m ++ [k] := by
  induction m with
  | nil => simp [upsertAdd, keysOf]
  | cons p rest ih =>
    obtain ⟨a, b⟩ := p
    by_cases hak : a = k
    · simp [upsertAdd, keysOf, hak]
    · have : (k ∈ keysOf ((a, b) :: rest)) = (k ∈ keysOf rest) := by
        simp [keysOf, Ne.symm hak]
      by_cases hmem : k ∈ keysOf rest <;>
        simp_all [upsertAdd, keysOf, hak, Ne.symm hak]

theorem nodup_keysOf_upsertAdd (m : List (String × Int)) (k : String) (v : Int)
    (h : (keysOf m).Nodup) : (keysOf (upsertAdd m k v)).Nodup := by
  rw [keysOf_upsertAdd]
  by_cases hmem : k ∈ keysOf m
  · simpa [hmem] using h
  · rw [if_neg hmem]
    refine List.Nodup.append h (by simp) ?_
    intro a ha hak
    simp only [List.mem_singleton] at hak
    exact hmem (hak ▸ ha)

theorem nodup_keysOf_accumPairs (ps : List (String × Int)) :
    (keysOf (accumPairs ps)).Nodup := by
  have main : ∀ (acc : List (String × Int)), (keysOf acc).Nodup →
      (keysOf (ps.foldl (fun m p => upsertAdd m p.1 p.2) acc)).Nodup := by
    induction ps with
    | nil => intro acc h; simpa using h
    | cons p ps ih =>
      intro acc h
      simpa using ih (upsertAdd acc p.1 p.2) (nodup_keysOf_upsertAdd acc p.1 p.2 h)
  simpa [accumPairs] using main [] (by simp [keysOf])

theorem mem_keysOf_of_mem {m : List (String × Int)} {k : String} {v : Int}
    (h : (k, v) ∈ m) : k ∈ keysOf m := by
  simpa [keysOf] using List.mem_map_of_mem Prod.fst h

theorem mem_iff_lookupA {m : List (String × Int)} (hm : (keysOf m).Nodup)
    (k : String) (v : Int) : (k, v) ∈ m ↔ lookupA m k = some v := by
  induction m with
  | nil => simp [lookupA]
  | cons p rest ih =>
    obtain ⟨a, b⟩ := p
    have hm' := hm
    simp only [keysOf, List.map_cons, List.nodup_cons] at hm'
    obtain ⟨ha, hrest⟩ := hm'
    have hrest' : (keysOf rest).Nodup := hrest
    by_cases hak : a = k
    · subst hak
      simp only [lookupA, List.mem_cons]
      simp only [if_true]
      constructor
      · rintro (h | h)
        · injection h with h1 h2
          rw [h2]
        · exact absurd (mem_keysOf_of_mem h) (by simpa [keysOf] using ha)
      · intro h
        injection h with h1
        exact Or.inl (by rw [h1])
    · simp only [lookupA, if_neg hak, List.mem_cons]
      constructor
      · rintro (h | h)
        · exact absurd (congrArg Prod.fst h).symm hak
        · exact (ih hrest').mp h
      · intro h
        exact Or.inr ((ih hrest').mpr h)

/-! ### Stable comparator sort

`Array.prototype.sort(cmp)` is required by the ECMAScript specification to be
stable; with a consistent comparator the result is the unique stable
reordering, which an insertion sort that never moves an element past an
equal one computes. -/

/-- Stable insertion of `x` (an element occurring before all of `l` in the
input) into an already sorted `l`: `x` goes before the first element it
compares less-or-equal to. -/
def insertSorted (le : α → α → Bool) (x : α) : List α → List α
  | [] => [x]
  | y :: ys => if le x y then x :: y :: ys else y :: insertSorted le x ys

/-- Stable sort by the comparator-induced order `le`. -/
def sortWith (le : α → α → Bool) : List α → List α
  | [] => []
  | x :: xs => insertSorted le x (sortWith le xs)

theorem perm_insertSorted (le : α → α → Bool) (x : α) (l : List α) :
    List.Perm (insertSorted le x l) (x :: l) := by
  induction l with
  | nil => rfl
  | cons y ys ih =>
    simp only [insertSorted]
    by_cases h : le x y
    · simp [h]
    · simp only [h]
      simp only [Bool.false_eq_true, if_false]
      exact (List.Perm.cons y ih).trans (List.Perm.swap x y ys)

theorem perm_sortWith (le : α → α → Bool) (l : List α) : List.Perm (sortWith le l) l := by
  induction l with
  | nil => rfl
  | cons x xs ih =>
    exact (perm_insertSorted le x (sortWith le xs)).trans (List.Perm.cons x ih)

theorem mem_sortWith (le : α → α → Bool) (l : List α) (a : α) :
    a ∈ sortWith le l ↔ a ∈ l :=
  (perm_sortWith le l).mem_iff

theorem pairwise_insertSorted (le : α → α → Bool)
    (htrans : ∀ a b c, le a b = true → le b c = true → le a c = true)
    (htot : ∀ a b, le a b = false → le b a = true)
    (x : α) (l : List α) (h : l.Pairwise (fun a b => le a b = true)) :
    (insertSorted le x l).Pairwise (fun a b => le a b = true) := by
  induction l with
  | nil => simp [insertSorted]
  | cons y ys ih =>
    rw [List.pairwise_cons] at h
    obtain ⟨hy, hys⟩ := h
    simp only [insertSorted]
    by_cases hxy : le x y
    · simp only [hxy, if_true]
      rw [List.pairwise_cons]
      refine ⟨?_, List.pairwise_cons.mpr ⟨hy, hys⟩⟩
      intro b hb
      rcases List.mem_cons.mp hb with hb | hb
      · exact hb ▸ hxy
      · exact htrans x y b hxy (hy b hb)
    · simp only [hxy]
      simp only [Bool.false_eq_true, if_false]
      rw [List.pairwise_cons]
      refine ⟨?_, ih hys⟩
      intro b hb
      rcases List.mem_cons.mp ((perm_insertSorted le x ys).mem_iff.mp hb) with hb' | hb'
      · exact hb' ▸ htot x y (Bool.of_not_eq_true hxy)
      · exact hy b hb'
    
theorem pairwise_sortWith (le : α → α → Bool)
    (htrans : ∀ a b c, le a b = true → le b c = true → le a c = true)
    (htot : ∀ a b, le a b = false → le b a = true)
    (l : List α) : (sortWith le l).Pairwise (fun a b => le a b = true) := by
  induction l with
  | nil => simp [sortWith]
  | cons x xs ih =>
    exact pairwise_insertSorted le htrans htot x (sortWith le xs) ih

/-! ### Data model

Types from `src/unnamed/part_004` (`firestore.ts`): `User`, `Product`,
`TransactionItem`, `Transaction`. -/

inductive Role
  | admin
  | manager
  | cashier
  deriving DecidableEq, Repr

inductive UserStatus
  | active
  | inactive
  | suspended
  deriving DecidableEq, Repr

inductive PaymentMethod
  | cash
  | card
  | digital
  deriving DecidableEq, Repr

inductive TxStatus
  | completed
  | cancelled
  | refunded
  deriving DecidableEq, Repr

/-- Snapshot of a product inside a transaction (`TransactionItem`). -/
structure TransactionItem where
  productId : String
  name : String
  quantity : Int
  price : Int
  unit : String
  deriving DecidableEq, Repr

/-- A stored transaction (`Transaction`). -/
structure Transaction where
  id : String
  cashierId : String
  cashierName : String
  items : List TransactionItem
  total : Int
  paymentMethod : PaymentMethod
  timestamp : DateTime
  status : TxStatus
  deriving DecidableEq, Repr

/-- A catalogue product (`Product`). -/
structure Product where
  id : String
  name : String
  unit : String
  price : Int
  stock : Int
  createdAt : DateTime
  deriving DecidableEq, Repr

/-- A user profile document (`User`). -/
structure Profile where
  id : String
  name : String
  email : String
  role : Role
  status : UserStatus
  lastActive : String
  deriving DecidableEq, Repr

/-! ### Sales aggregator

`AnalyticsService.calculateSalesByMonth` / `calculateTopProducts` from
`src/unnamed/part_004` lines 403–430, and the identical accumulations in the
`useAnalytics` hook (`src/unnamed/part_002` lines 229–264). -/

namespace AnalyticsService

/-- Accumulation loop of `calculateSalesByMonth`: for each transaction,
`salesByMonth[monthKey] = (salesByMonth[monthKey] || 0) + transaction.total`. -/
def salesByMonthObj (ts : List Transaction) : List (String × Int) :=
  ts.foldl (fun m t => upsertAdd m (monthKey t.timestamp) t.total) []

/-- Per-transaction keyed contributions of the monthly accumulation. -/
def monthContribs (ts : List Transaction) : List (String × Int) :=
  ts.map (fun t => (monthKey t.timestamp, t.total))

theorem salesByMonthObj_eq (ts : List Transaction) :
    salesByMonthObj ts = accumPairs (monthContribs ts) := by
  simp [salesByMonthObj, accumPairs, monthContribs, List.foldl_map]

/-- `calculateSalesByMonth`: accumulate, take `Object.entries`, and sort by
`a.month.localeCompare(b.month)` (ascending month key; for these ASCII digit
keys `localeCompare` agrees with code-point order, modelled by the
lexicographic `String` order). -/
def calculateSalesByMonth (ts : List Transaction) : List (String × Int) :=
  sortWith (fun a b => decide (a.1 ≤ b.1)) (salesByMonthObj ts)

/-- Accumulation loop of `calculateTopProducts`: for each transaction and each
of its items, `productSales[item.name] = (productSales[item.name] || 0) +
item.quantity * item.price`. -/
def productSalesObj (ts : List Transaction) : List (String × Int) :=
  ts.foldl (fun m t =>
    t.items.foldl (fun m i => upsertAdd m i.name (i.quantity * i.price)) m) []

/-- Per-item keyed contributions of the product accumulation, in traversal
order. -/
def productContribs (ts : List Transaction) : List (String × Int) :=
  (ts.map (fun t => t.items.map (fun i => (i.name, i.quantity * i.price)))).join

theorem productSalesObj_eq (ts : List Transaction) :
    productSalesObj ts = accumPairs (productContribs ts) := by
  simp [productSalesObj, accumPairs, productContribs, List.foldl_join, List.foldl_map]

/-- `calculateTopProducts`: accumulate, take `Object.entries`, sort by the
comparator `(a, b) => b.sales - a.sales` (descending sales) and
`.slice(0, 5)`. -/
def calculateTopProducts (ts : List Transaction) : List (String × Int) :=
  (sortWith (fun a b => decide (b.2 ≤ a.2)) (productSalesObj ts)).take 5

end AnalyticsService

/-- Monthly revenue named by the spec: the sum of the `total` fields of the
transactions whose timestamp falls in the calendar month with key `k`. -/
def monthTotal (ts : List Transaction) (k : String) : Int :=
  ((ts.filter (fun t => monthKey t.timestamp == k)).map Transaction.total).sum

/-- Revenue of a product name as the spec defines it: the sum over all
transaction items with that name of quantity times price. -/
def revenueOfName (ts : List Transaction) (n : String) : Int :=
  (ts.map (fun t =>
    ((t.items.filter (fun i => i.name == n)).map (fun i => i.quantity * i.price)).sum)).sum

namespace useAnalytics

/-- Monthly accumulation in the `useAnalytics` hook: the same loop as
`calculateSalesByMonth`, but the hook returns
`Object.entries(salesByMonth).map(...)` without sorting. -/
def salesByMonth (ts : List Transaction) : List (String × Int) :=
  ts.foldl (fun m t => upsertAdd m (monthKey t.timestamp) t.total) []

/-- Top products in the `useAnalytics` hook: the same accumulation, sort and
`slice(0, 5)` as `calculateTopProducts`. -/
def topProducts (ts : List Transaction) : List (String × Int) :=
  (sortWith (fun a b => decide (b.2 ≤ a.2))
    (ts.foldl (fun m t =>
      t.items.foldl (fun m i => upsertAdd m i.name (i.quantity * i.price)) m) [])).take 5

end useAnalytics

theorem mem_accumPairs_iff (ps : List (String × Int)) (k : String) (v : Int) :
    (k, v) ∈ accumPairs ps ↔
      ps.any (fun p => p.1 == k) = true ∧ v = sumVals ps k := by
  rw [mem_iff_lookupA (nodup_keysOf_accumPairs ps), lookupA_accumPairs]
  by_cases h : ps.any (fun p => p.1 == k) <;> simp [h, eq_comm]

theorem sumVals_monthContribs (ts : List Transaction) (k : String) :
    sumVals (AnalyticsService.monthContribs ts) k = monthTotal ts k := by
  induction ts with
  | nil => simp [sumVals, AnalyticsService.monthContribs, monthTotal]
  | cons t ts ih =>
    by_cases h : monthKey t.timestamp == k <;>
      simp_all [sumVals, AnalyticsService.monthContribs, monthTotal,
        List.filter_cons, h]

theorem any_monthContribs (ts : List Transaction) (k : String) :
    (AnalyticsService.monthContribs ts).any (fun p => p.1 == k)
      = ts.any (fun t => monthKey t.timestamp == k) := by
  induction ts with
  | nil => simp [AnalyticsService.monthContribs]
  | cons t ts ih =>
    simp only [AnalyticsService.monthContribs, List.map_cons, List.any_cons] at *
    rw [ih]

/-- C1: every entry of the sales-by-month output (both the
`AnalyticsService.calculateSalesByMonth` variant and the unsorted
`useAnalytics` variant) maps a month key to exactly the sum of the `total`
fields of the transactions falling in that calendar month, and a month key
appears in the output exactly when some input transaction falls in that
month; month keys coincide exactly for timestamps in the same calendar
month. -/
theorem salesByMonth_entries_characterized (ts : List Transaction) (k : String) (s : Int) :
    ((k, s) ∈ AnalyticsService.calculateSalesByMonth ts ↔
      (∃ t ∈ ts, monthKey t.timestamp = k) ∧ s = monthTotal ts k)
    ∧ ((k, s) ∈ useAnalytics.salesByMonth ts ↔
      (∃ t ∈ ts, monthKey t.timestamp = k) ∧ s = monthTotal ts k)
    ∧ (∀ d e : DateTime, monthKey d = monthKey e ↔ d.year = e.year ∧ d.month = e.month) := by
  have hobj : (k, s) ∈ AnalyticsService.salesByMonthObj ts ↔
      (∃ t ∈ ts, monthKey t.timestamp = k) ∧ s = monthTotal ts k := by
    rw [AnalyticsService.salesByMonthObj_eq, mem_accumPairs_iff,
      sumVals_monthContribs, any_monthContribs]
    simp [List.any_eq_true]
  refine ⟨?_, hobj, monthKey_eq_iff⟩
  rw [AnalyticsService.calculateSalesByMonth,
    mem_sortWith (fun a b => decide (a.1 ≤ b.1)) (AnalyticsService.salesByMonthObj ts) (k, s)]
  exact hobj

theorem sumVals_map (f : β → String × Int) (l : List β) (k : String) :
    sumVals (l.map f) k
      = ((l.filter (fun x => (f x).1 == k)).map (fun x => (f x).2)).sum := by
  induction l with
  | nil => simp [sumVals]
  | cons x l ih =>
    by_cases h : (f x).1 == k <;>
      simp_all [sumVals, List.filter_cons, h]

theorem any_map_key (f : β → String × Int) (l : List β) (k : String) :
    (l.map f).any (fun p => p.1 == k) = l.any (fun x => (f x).1 == k) := by
  induction l with
  | nil => rfl
  | cons x l ih =>
    simp only [List.map_cons, List.any_cons]
    rw [ih]

theorem sumVals_append (l1 l2 : List (String × Int)) (k : String) :
    sumVals (l1 ++ l2) k = sumVals l1 k + sumVals l2 k := by
  simp [sumVals, List.filter_append]

theorem sumVals_productContribs (ts : List Transaction) (n : String) :
    sumVals (AnalyticsService.productContribs ts) n = revenueOfName ts n := by
  induction ts with
  | nil => simp [sumVals, AnalyticsService.productContribs, revenueOfName]
  | cons t ts ih =>
    have h1 : AnalyticsService.productContribs (t :: ts)
        = t.items.map (fun i => (i.name, i.quantity * i.price))
          ++ AnalyticsService.productContribs ts := by
      simp [AnalyticsService.productContribs]
    rw [h1, sumVals_append, sumVals_map, ih]
    simp [revenueOfName]

/-- Descending sort by the `.2` component (the comparator
`(a, b) => b.sales - a.sales`) yields a list that is pairwise descending. -/
theorem pairwise_sortDesc (m : List (String × Int)) :
    (sortWith (fun a b => decide (b.2 ≤ a.2)) m).Pairwise (fun a b => b.2 ≤ a.2) := by
  have h := pairwise_sortWith (fun a b : String × Int => decide (b.2 ≤ a.2))
    (fun a b c hab hbc => by
      simp only [decide_eq_true_eq] at *
      omega)
    (fun a b hab => by
      simp only [decide_eq_false_iff_not] at hab
      simp only [decide_eq_true_eq]
      omega)
    m
  exact h.imp (fun hab => by simpa using hab)

/-! ### Top cashiers (server side)

The vanilla variant's dashboard reads `analytics.topCashiers` from the
serverless `GET /analytics/sales` endpoint; that server function is not part
of `src/`. -/

namespace ServerAnalytics

/-- Modelled from the spec: the serverless `GET /analytics/sales` aggregation
producing `topCashiers` is missing from `src/` (only its caller
`Dashboard.tsx` is present).  Per the spec's algorithm — a single linear pass
accumulating a name→sum revenue mapping, then sorting the entries descending
and truncating to 5 — with revenue grouped by cashier name. -/
def calculateTopCashiers (ts : List Transaction) : List (String × Int) :=
  (sortWith (fun a b => decide (b.2 ≤ a.2))
    (accumPairs (ts.map (fun t =>
      (t.cashierName, (t.items.map (fun i => i.quantity * i.price)).sum))))).take 5

end ServerAnalytics

/-- Revenue attributed to a cashier name: the item revenue of the
transactions recorded under that cashier name. -/
def revenueOfCashier (ts : List Transaction) (n : String) : Int :=
  ((ts.filter (fun t => t.cashierName == n)).map
    (fun t => (t.items.map (fun i => i.quantity * i.price)).sum)).sum

/-- C2: the top-products list (`calculateTopProducts`, identical in the
`useAnalytics` hook) and the top-cashiers list (server side, modelled from
the spec) are sorted in descending order of revenue — quantity times price
summed per grouping name — and truncated to at most 5 entries, every listed
revenue being exactly the grouped sum. -/
theorem topLists_sorted_and_truncated (ts : List Transaction) :
    (AnalyticsService.calculateTopProducts ts).length ≤ 5
    ∧ (AnalyticsService.calculateTopProducts ts).Pairwise (fun a b => b.2 ≤ a.2)
    ∧ (∀ e ∈ AnalyticsService.calculateTopProducts ts, e.2 = revenueOfName ts e.1)
    ∧ useAnalytics.topProducts ts = AnalyticsService.calculateTopProducts ts
    ∧ (ServerAnalytics.calculateTopCashiers ts).length ≤ 5
    ∧ (ServerAnalytics.calculateTopCashiers ts).Pairwise (fun a b => b.2 ≤ a.2)
    ∧ (∀ e ∈ ServerAnalytics.calculateTopCashiers ts, e.2 = revenueOfCashier ts e.1) := by
  refine ⟨?_, ?_, ?_, rfl, ?_, ?_, ?_⟩
  · rw [AnalyticsService.calculateTopProducts, List.length_take]
    omega
  · exact List.Pairwise.sublist (List.take_sublist 5 _) (pairwise_sortDesc _)
  · intro e he
    have hmem : e ∈ accumPairs (AnalyticsService.productContribs ts) := by
      have := (List.take_sublist 5 _).mem he
      rw [AnalyticsService.calculateTopProducts] at *
      rw [← AnalyticsService.productSalesObj_eq]
      exact (mem_sortWith _ _ e).mp (by simpa using this)
    obtain ⟨k, v⟩ := e
    have := (mem_accumPairs_iff _ k v).mp hmem
    simpa [sumVals_productContribs] using this.2
  · rw [ServerAnalytics.calculateTopCashiers, List.length_take]
    omega
  · exact List.Pairwise.sublist (List.take_sublist 5 _) (pairwise_sortDesc _)
  · intro e he
    have hmem : e ∈ accumPairs (ts.map (fun t =>
        (t.cashierName, (t.items.map (fun i => i.quantity * i.price)).sum))) := by
      have := (List.take_sublist 5 _).mem he
      rw [ServerAnalytics.calculateTopCashiers] at *
      exact (mem_sortWith _ _ e).mp (by simpa using this)
    obtain ⟨k, v⟩ := e
    have := (mem_accumPairs_iff _ k v).mp hmem
    rw [sumVals_map] at this
    simpa [revenueOfCashier] using this.2

/-- Ascending sort by the `.1` component (the comparator
`(a, b) => a.month.localeCompare(b.month)`) yields a list that is pairwise
ascending. -/
theorem pairwise_sortAsc (m : List (String × Int)) :
    (sortWith (fun a b => decide (a.1 ≤ b.1)) m).Pairwise (fun a b => a.1 ≤ b.1) := by
  have h := pairwise_sortWith (fun a b : String × Int => decide (a.1 ≤ b.1))
    (fun a b c hab hbc => by
      simp only [decide_eq_true_eq] at *
      exact le_trans hab hbc)
    (fun a b hab => by
      simp only [decide_eq_false_iff_not] at hab
      simp only [decide_eq_true_eq]
      exact le_of_not_le hab)
    m
  exact h.imp (fun hab => by simpa using hab)

theorem nodup_keys_calculateSalesByMonth (ts : List Transaction) :
    (keysOf (AnalyticsService.calculateSalesByMonth ts)).Nodup := by
  have hperm : List.Perm (AnalyticsService.calculateSalesByMonth ts)
      (accumPairs (AnalyticsService.monthContribs ts)) := by
    rw [AnalyticsService.calculateSalesByMonth, AnalyticsService.salesByMonthObj_eq]
    exact perm_sortWith _ _
  exact ((hperm.map Prod.fst).nodup_iff).mpr (nodup_keysOf_accumPairs _)

/-- A fixed six-transaction history spanning six different calendar months of
2024 with totals 1..6. -/
def txAt (y : Nat) (m : Fin 12) (tot : Int) : Transaction :=
  { id := "t", cashierId := "c", cashierName := "Cash", items := [],
    total := tot, paymentMethod := PaymentMethod.cash,
    timestamp := ⟨y, m, ""⟩, status := TxStatus.completed }

/-- Six transactions in six distinct months. -/
def sixMonthsTx : List Transaction :=
  [txAt 2024 0 1, txAt 2024 1 2, txAt 2024 2 3,
    txAt 2024 3 4, txAt 2024 4 5, txAt 2024 5 6]

/-- C3 counterexample: on a six-month history the sales-by-month output has
six entries, so it is not truncated to at most 5 entries as claimed. -/
theorem salesByMonth_not_truncated_to_five :
    (AnalyticsService.calculateSalesByMonth sixMonthsTx).length = 6
    ∧ ¬ (AnalyticsService.calculateSalesByMonth sixMonthsTx).length ≤ 5 := by
  have hlen : (AnalyticsService.calculateSalesByMonth sixMonthsTx).length
      = (AnalyticsService.salesByMonthObj sixMonthsTx).length :=
    (perm_sortWith _ _).length_eq
  rw [hlen]
  exact ⟨by decide, by decide⟩

/-- C3 amended: the aggregator accumulates a month→sum mapping and a
name→sum mapping in linear passes; the name→sum entries (top products) are
sorted descending by revenue and truncated to 5, while the month→sum entries
(sales by month) are sorted ascending by month key and not truncated: every
month with a transaction appears, with exactly the monthly sum. -/
theorem aggregator_shape_amended (ts : List Transaction) :
    (AnalyticsService.calculateSalesByMonth ts).Pairwise (fun a b => a.1 < b.1)
    ∧ (∀ k s, (k, s) ∈ AnalyticsService.calculateSalesByMonth ts ↔
        (∃ t ∈ ts, monthKey t.timestamp = k) ∧ s = monthTotal ts k)
    ∧ (AnalyticsService.calculateTopProducts ts).Pairwise (fun a b => b.2 ≤ a.2)
    ∧ (AnalyticsService.calculateTopProducts ts).length ≤ 5 := by
  refine ⟨?_, ?_, ?_, ?_⟩
  · have h1 : (AnalyticsService.calculateSalesByMonth ts).Pairwise
        (fun a b => a.1 ≤ b.1) := pairwise_sortAsc _
    have h2 : (AnalyticsService.calculateSalesByMonth ts).Pairwise
        (fun a b => a.1 ≠ b.1) :=
      List.pairwise_map.mp (nodup_keys_calculateSalesByMonth ts)
    exact (h1.and h2).imp (fun h => lt_of_le_of_ne h.1 h.2)
  · intro k s
    rw [AnalyticsService.calculateSalesByMonth, mem_sortWith,
      AnalyticsService.salesByMonthObj_eq, mem_accumPairs_iff,
      sumVals_monthContribs, any_monthContribs]
    simp [List.any_eq_true]
  · exact List.Pairwise.sublist (List.take_sublist 5 _) (pairwise_sortDesc _)
  · rw [AnalyticsService.calculateTopProducts, List.length_take]
    omega

/-! ### Role-hierarchy permission check

`Utils.hasPermission` from `src/unnamed/part_004` lines 891–903: the current
user role is read from `window.AppState.userProfile?.role` (absent when no
profile is loaded), and ranks come from the literal
`{ admin: 3, manager: 2, cashier: 1 }`. -/

namespace Utils

/-- Ordinal rank of a role (`roleHierarchy`). -/
def roleHierarchy : Role → Nat
  | Role.admin => 3
  | Role.manager => 2
  | Role.cashier => 1

/-- `Utils.hasPermission(requiredRole)` with the current profile role passed
explicitly: `if (!userRole) return false; return
roleHierarchy[userRole] >= roleHierarchy[requiredRole]`. -/
def hasPermission (userRole : Option Role) (requiredRole : Role) : Bool :=
  match userRole with
  | none => false
  | some u => roleHierarchy u ≥ roleHierarchy requiredRole

end Utils

/-- C4: for roles drawn from admin/manager/cashier, `hasPermission` returns
true exactly when the user's rank is at least the required rank under
admin = 3, manager = 2, cashier = 1, and it returns false whenever there is
no current user role. -/
theorem hasPermission_rank_characterized :
    (∀ u r : Role, Utils.hasPermission (some u) r = true ↔
      Utils.roleHierarchy u ≥ Utils.roleHierarchy r)
    ∧ (∀ r : Role, Utils.hasPermission none r = false) := by
  constructor
  · intro u r
    cases u <;> cases r <;>
      simp [Utils.hasPermission, Utils.roleHierarchy]
  · intro r
    rfl

/-! ### Stock classification and the low-stock threshold

`Utils.getStockStatus` from `src/unnamed/part_004` lines 877–882, the default
threshold of `useLowStockProducts` (`src/unnamed/part_002` line 178), and the
product-card warning `product.stock <= 10` in `ProductManagement.tsx`. -/

inductive StockStatus
  | outOfStock
  | lowStock
  | inStock
  deriving DecidableEq, Repr

namespace Utils

/-- `Utils.getStockStatus(stock)`: `stock === 0` → out-of-stock,
`stock <= 10` → low-stock, else in-stock.  The claim quantifies over
non-negative integer stocks, so the argument is a `Nat`. -/
def getStockStatus (stock : Nat) : StockStatus :=
  if stock = 0 then StockStatus.outOfStock
  else if stock ≤ 10 then StockStatus.lowStock
  else StockStatus.inStock

end Utils

namespace useLowStockProducts

/-- Default `threshold` parameter of the `useLowStockProducts` hook. -/
def defaultThreshold : Nat := 10

end useLowStockProducts

namespace ProductManagement

/-- Product-card low-stock warning condition `product.stock <= 10` in
`ProductManagement.tsx`. -/
def lowStockWarn (stock : Nat) : Bool :=
  stock ≤ 10

end ProductManagement

/-- C10: the stock classification is out-of-stock exactly at 0, low-stock
exactly on 1..10, in-stock exactly above 10; and the product-list warning
and the low-stock query default use the same fixed threshold 10: the warning
fires exactly at or below the default threshold, which is exactly where the
classification is not in-stock. -/
theorem getStockStatus_thresholds (stock : Nat) :
    (Utils.getStockStatus stock = StockStatus.outOfStock ↔ stock = 0)
    ∧ (Utils.getStockStatus stock = StockStatus.lowStock ↔ 1 ≤ stock ∧ stock ≤ 10)
    ∧ (Utils.getStockStatus stock = StockStatus.inStock ↔ 10 < stock)
    ∧ useLowStockProducts.defaultThreshold = 10
    ∧ (ProductManagement.lowStockWarn stock = true ↔
        stock ≤ useLowStockProducts.defaultThreshold)
    ∧ (ProductManagement.lowStockWarn stock = true ↔
        Utils.getStockStatus stock ≠ StockStatus.inStock) := by
  by_cases h0 : stock = 0
  · subst h0
    refine ⟨by simp [Utils.getStockStatus], ?_, ?_, rfl, ?_, ?_⟩ <;>
      simp [Utils.getStockStatus, ProductManagement.lowStockWarn,
        useLowStockProducts.defaultThreshold]
  · by_cases h10 : stock ≤ 10
    · refine ⟨?_, ?_, ?_, rfl, ?_, ?_⟩ <;>
        simp [Utils.getStockStatus, ProductManagement.lowStockWarn,
          useLowStockProducts.defaultThreshold, h0, h10] <;>
        omega
    · refine ⟨?_, ?_, ?_, rfl, ?_, ?_⟩ <;>
        simp [Utils.getStockStatus, ProductManagement.lowStockWarn,
          useLowStockProducts.defaultThreshold, h0, h10] <;>
        omega

/-! ### Transaction creation

`TransactionsService.create` from `src/unnamed/part_004` lines 307–325.  The
service writes only to the `transactions` collection; `getCurrentUser()`,
`Timestamp.now()` and the fresh `addDoc` document id are passed explicitly. -/

/-- An authenticated Firebase user (`auth.currentUser`). -/
structure AuthUser where
  uid : String
  deriving DecidableEq, Repr

/-- Caller-supplied data, `Omit<Transaction, 'id' | 'timestamp'>` — note that
it still contains a `status` field. -/
structure TransactionInput where
  cashierId : String
  cashierName : String
  items : List TransactionItem
  total : Int
  paymentMethod : PaymentMethod
  status : TxStatus
  deriving DecidableEq, Repr

/-- Firestore state seen by the services: the `products` and `transactions`
collections as document-id-keyed lists. -/
structure FirestoreState where
  products : List (String × Product)
  transactions : List (String × Transaction)
  deriving DecidableEq, Repr

namespace TransactionsService

/-- Document written by `create`: the spread `...transactionData` followed by
`timestamp: Timestamp.now()...` and `status: 'completed'`, which override any
caller-supplied values of those two fields. -/
def storedTx (newId : String) (txd : TransactionInput) (now : DateTime) : Transaction :=
  { id := newId, cashierId := txd.cashierId, cashierName := txd.cashierName,
    items := txd.items, total := txd.total, paymentMethod := txd.paymentMethod,
    timestamp := now, status := TxStatus.completed }

/-- `TransactionsService.create`: throws `'User not authenticated'` when
there is no current user, otherwise adds the document to the `transactions`
collection. -/
def create (currentUser : Option AuthUser) (txd : TransactionInput)
    (now : DateTime) (newId : String) (s : FirestoreState) :
    Except String String × FirestoreState :=
  match currentUser with
  | none => (Except.error "User not authenticated", s)
  | some _ =>
    (Except.ok newId,
      { s with transactions := s.transactions ++ [(newId, storedTx newId txd now)] })

end TransactionsService

/-- C5: recording a sale through `TransactionsService.create` leaves the
stored products — in particular every product's `stock` field — unchanged:
no stock is decremented transactionally. -/
theorem create_leaves_products_unchanged (currentUser : Option AuthUser)
    (txd : TransactionInput) (now : DateTime) (newId : String) (s : FirestoreState) :
    ((TransactionsService.create currentUser txd now newId s).2).products = s.products
    ∧ ((TransactionsService.create currentUser txd now newId s).2).products.map
        (fun p => p.2.stock)
      = s.products.map (fun p => p.2.stock) := by
  cases currentUser <;> exact ⟨rfl, rfl⟩

/-- C8: `create` stores the transaction with status `completed` and with the
creation time as timestamp, whatever status the caller supplied, and with no
authenticated user it returns the `'User not authenticated'` error leaving
the state untouched. -/
theorem create_forces_completed_status (txd : TransactionInput) (now : DateTime)
    (newId : String) (s : FirestoreState) :
    (∀ u : AuthUser,
      ((TransactionsService.create (some u) txd now newId s).2).transactions
        = s.transactions ++ [(newId, TransactionsService.storedTx newId txd now)])
    ∧ (TransactionsService.storedTx newId txd now).status = TxStatus.completed
    ∧ (TransactionsService.storedTx newId txd now).timestamp = now
    ∧ TransactionsService.create none txd now newId s
        = (Except.error "User not authenticated", s) := by
  exact ⟨fun u => rfl, rfl, rfl, rfl⟩

/-! ### Error handling

`ErrorHandler.handle` from `src/unnamed/part_004` lines 1240–1273 and
`Auth.handleLogout` from lines 550–564, acting on the global
`window.AppState`.  `String.prototype.includes` is modelled by a direct
substring scan. -/

/-- Containment test used by `listHasSub`: does the string start with the
pattern? -/
def listStartsWith : List Char → List Char → Bool
  | [], _ => true
  | _ :: _, [] => false
  | p :: ps, c :: cs => p == c && listStartsWith ps cs

/-- Substring scan: does the pattern occur anywhere in the string? -/
def listHasSub (pat : List Char) : List Char → Bool
  | [] => listStartsWith pat []
  | c :: cs => listStartsWith pat (c :: cs) || listHasSub pat cs

/-- `s.includes(pat)`. -/
def strIncludes (s pat : String) : Bool := listHasSub pat.data s.data

/-- Which page is visible. -/
inductive View
  | loginPage
  | mainApp
  deriving DecidableEq, Repr

/-- Global application state of the vanilla variant (`window.AppState`):
current user, loaded profile, access token and visible page. -/
structure AppState where
  user : Option AuthUser
  userProfile : Option Profile
  accessToken : Option String
  view : View
  deriving DecidableEq, Repr

namespace Auth

/-- `Auth.handleLogout`: sign out of the external auth service, null out
`user`, `userProfile` and `accessToken`, and show the login page. -/
def handleLogout (s : AppState) : AppState :=
  { s with
    user := none
    userProfile := none
    accessToken := none
    view := View.loginPage }

end Auth

namespace ErrorHandler

/-- Condition under which `handle` treats the error as an expired session:
`error.message.includes('Unauthorized') || error.message.includes('401')`. -/
def is401 (msg : String) : Bool :=
  strIncludes msg "Unauthorized" || strIncludes msg "401"

/-- `ErrorHandler.handle(error)`: on an unauthorized/401 message it calls
`Auth.handleLogout()` and returns without showing anything; otherwise it
computes a single message (the 403/404/500 rewrites are applied in sequence,
an empty message falling back to a generic one) and shows it once via
`Utils.showError`.  The result pairs the new `AppState` with the displayed
message, if any. -/
def handle (msg : String) (s : AppState) : AppState × Option String :=
  if is401 msg then
    (Auth.handleLogout s, none)
  else
    let m0 := if msg = "" then "An unexpected error occurred" else msg
    let m1 := if strIncludes msg "403" then "Access denied. Insufficient permissions." else m0
    let m2 := if strIncludes msg "404" then "Resource not found." else m1
    let m3 := if strIncludes msg "500" then "Server error. Please try again later." else m2
    (s, some m3)

end ErrorHandler

/-- C6: an error whose message indicates an unauthorized/401 response forces
a logout — the user, profile and access token are cleared and the login view
is shown — and no message is displayed; any other error leaves the state
unchanged and displays exactly one user-visible message. -/
theorem errorHandler_behavior (msg : String) (s : AppState) :
    (ErrorHandler.is401 msg = true →
      ErrorHandler.handle msg s
        = ({ user := none
             userProfile := none
             accessToken := none
             view := View.loginPage }, none))
    ∧ (ErrorHandler.is401 msg = false →
      (ErrorHandler.handle msg s).1 = s
        ∧ ∃ m, (ErrorHandler.handle msg s).2 = some m) := by
  constructor
  · intro h
    simp [ErrorHandler.handle, h, Auth.handleLogout]
  · intro h
    simp [ErrorHandler.handle, h]

/-- Concrete application state used by the witnesses. -/
def sampleState : AppState :=
  { user := some ⟨"u1"⟩
    userProfile := none
    accessToken := some "tok"
    view := View.mainApp }

/-- Witness for the error-handler theorem at the concrete messages
`'Request failed with status 401'` and `'boom'`. -/
theorem errorHandler_behavior_witness :
    ErrorHandler.handle "Request failed with status 401" sampleState
      = ({ user := none
           userProfile := none
           accessToken := none
           view := View.loginPage }, none)
    ∧ ((ErrorHandler.handle "boom" sampleState).1 = sampleState
      ∧ ∃ m, (ErrorHandler.handle "boom" sampleState).2 = some m) :=
  ⟨(errorHandler_behavior "Request failed with status 401" sampleState).1 (by decide),
    (errorHandler_behavior "boom" sampleState).2 (by decide)⟩

/-! ### Time-expiring cache

`DataCache` from `src/unnamed/part_004` lines 1101–1142: a `Map` from string
keys to `{ data, expiry }` records, with `Date.now()` passed explicitly (in
milliseconds). -/

namespace DataCache

/-- A cache record `{ data, expiry }`. -/
structure Entry (α : Type) where
  data : α
  expiry : Int
  deriving DecidableEq

/-- The backing `Map`, insertion-ordered with unique keys. -/
abbrev Cache (α : Type) := List (String × Entry α)

/-- `Map.prototype.get`. -/
def mapFind : Cache α → String → Option (Entry α)
  | [], _ => none
  | (k', e) :: rest, k => if k' = k then some e else mapFind rest k

/-- `Map.prototype.set`: replace in place, or append a new key. -/
def mapSet : Cache α → String → Entry α → Cache α
  | [], k, e => [(k, e)]
  | (k', e') :: rest, k, e =>
    if k' = k then (k, e) :: rest else (k', e') :: mapSet rest k e

/-- `Map.prototype.delete`. -/
def mapDelete (c : Cache α) (k : String) : Cache α :=
  c.filter (fun p => !(p.1 == k))

/-- `DataCache.set(key, data, expiryMinutes)`:
`expiry = Date.now() + expiryMinutes * 60 * 1000`. -/
def set (c : Cache α) (key : String) (data : α) (now expiryMinutes : Int) : Cache α :=
  mapSet c key ⟨data, now + expiryMinutes * 60 * 1000⟩

/-- `DataCache.get(key)`: a missing key yields `null`; an entry past its
expiry is deleted and yields `null`; otherwise the data is returned.  The
result pairs the returned value with the cache afterwards. -/
def get (c : Cache α) (key : String) (now : Int) : Option α × Cache α :=
  match mapFind c key with
  | none => (none, c)
  | some e => if now > e.expiry then (none, mapDelete c key) else (some e.data, c)

/-- `DataCache.clear(key)`: delete one key, or everything. -/
def clear (c : Cache α) (key : Option String) : Cache α :=
  match key with
  | some k => mapDelete c k
  | none => []

/-- `DataCache.cleanup()`: drop every expired entry. -/
def cleanup (c : Cache α) (now : Int) : Cache α :=
  c.filter (fun p => !(now > p.2.expiry))

end DataCache

theorem mapFind_mapSet (c : DataCache.Cache α) (k k' : String) (e : DataCache.Entry α) :
    DataCache.mapFind (DataCache.mapSet c k e) k'
      = if k = k' then some e else DataCache.mapFind c k' := by
  induction c with
  | nil => by_cases h : k = k' <;> simp [DataCache.mapSet, DataCache.mapFind, h]
  | cons q rest ih =>
    obtain ⟨a, e'⟩ := q
    by_cases hak : a = k <;> by_cases hkk : k = k' <;>
      simp_all [DataCache.mapSet, DataCache.mapFind]

theorem mapFind_mapDelete (c : DataCache.Cache α) (k k' : String) :
    DataCache.mapFind (DataCache.mapDelete c k) k'
      = if k' = k then none else DataCache.mapFind c k' := by
  induction c with
  | nil => by_cases h : k' = k <;> simp [DataCache.mapDelete, DataCache.mapFind, h]
  | cons q rest ih =>
    obtain ⟨a, e⟩ := q
    by_cases hak : a = k <;> by_cases hkk : k' = k <;>
      simp_all [DataCache.mapDelete, DataCache.mapFind, List.filter_cons] <;>
      rw [if_neg (fun h => hkk h.symm)]

theorem mapFind_eq_none_iff (c : DataCache.Cache α) (k : String) :
    DataCache.mapFind c k = none ↔ k ∉ c.map Prod.fst := by
  induction c with
  | nil => simp [DataCache.mapFind]
  | cons q rest ih =>
    obtain ⟨a, e⟩ := q
    by_cases hak : a = k <;> simp_all [DataCache.mapFind, hak, eq_comm]

theorem mapFind_filter_or (c : DataCache.Cache α)
    (p : String × DataCache.Entry α → Bool) (k : String)
    (hnd : (c.map Prod.fst).Nodup) :
    DataCache.mapFind (c.filter p) k = DataCache.mapFind c k
      ∨ DataCache.mapFind (c.filter p) k = none := by
  induction c with
  | nil => left; rfl
  | cons q rest ih =>
    obtain ⟨a, e⟩ := q
    simp only [List.map_cons, List.nodup_cons] at hnd
    obtain ⟨ha, hrest⟩ := hnd
    by_cases hp : p (a, e)
    · by_cases hak : a = k
      · subst hak
        left
        simp [DataCache.mapFind, List.filter_cons, hp]
      · simpa [DataCache.mapFind, List.filter_cons, hp, hak] using ih hrest
    · by_cases hak : a = k
      · subst hak
        right
        rw [List.filter_cons_of_neg (by simpa using hp)]
        rw [mapFind_eq_none_iff]
        intro hmem
        exact ha (List.map_subset _ (List.Sublist.subset (List.filter_sublist _)) hmem)
      · simpa [DataCache.mapFind, List.filter_cons, hp, hak] using ih hrest

/-- C7: after `set(key, value, m)` a `get` within `m` minutes of the set
returns the value; a `get` after the expiry time returns null and removes
the entry; a `get` of a never-set key returns null and leaves the cache
unchanged; and the value of a live entry is only ever changed by a later
`set` of the same key — a `set` of a different key leaves it intact, and
`get` and `cleanup` either keep an entry exactly as it is or remove it. -/
theorem dataCache_expiry_semantics {α : Type} (c : DataCache.Cache α)
    (hnd : (c.map Prod.fst).Nodup) (k : String) (v : α) (now m t : Int) :
    (t ≤ now + m * 60 * 1000 →
      (DataCache.get (DataCache.set c k v now m) k t).1 = some v)
    ∧ (t > now + m * 60 * 1000 →
      (DataCache.get (DataCache.set c k v now m) k t).1 = none
        ∧ DataCache.mapFind ((DataCache.get (DataCache.set c k v now m) k t).2) k = none)
    ∧ (DataCache.mapFind c k = none → DataCache.get c k t = (none, c))
    ∧ (∀ (k' : String) (v' : α) (now' m' : Int), k' ≠ k →
        DataCache.mapFind (DataCache.set c k' v' now' m') k = DataCache.mapFind c k)
    ∧ (∀ k' : String,
        DataCache.mapFind ((DataCache.get c k' t).2) k = DataCache.mapFind c k
          ∨ DataCache.mapFind ((DataCache.get c k' t).2) k = none)
    ∧ (DataCache.mapFind (DataCache.cleanup c t) k = DataCache.mapFind c k
        ∨ DataCache.mapFind (DataCache.cleanup c t) k = none) := by
  have hf : DataCache.mapFind (DataCache.mapSet c k ⟨v, now + m * 60 * 1000⟩) k
      = some ⟨v, now + m * 60 * 1000⟩ := by
    rw [mapFind_mapSet]
    simp
  refine ⟨?_, ?_, ?_, ?_, ?_, ?_⟩
  · intro h
    simp only [DataCache.set, DataCache.get, hf]
    rw [if_neg (by omega)]
  · intro h
    simp only [DataCache.set, DataCache.get, hf]
    rw [if_pos (by omega)]
    refine ⟨rfl, ?_⟩
    rw [mapFind_mapDelete]
    simp
  · intro h
    simp [DataCache.get, h]
  · intro k' v' now' m' hne
    rw [DataCache.set, mapFind_mapSet, if_neg hne]
  · intro k'
    cases hfind : DataCache.mapFind c k' with
    | none =>
      left
      simp [DataCache.get, hfind]
    | some e =>
      by_cases hexp : t > e.expiry
      · by_cases hkk : k = k'
        · subst hkk
          right
          simp only [DataCache.get, hfind]
          rw [if_pos hexp]
          rw [mapFind_mapDelete]
          simp
        · left
          simp only [DataCache.get, hfind]
          rw [if_pos hexp]
          rw [mapFind_mapDelete]
          rw [if_neg hkk]
      · left
        simp only [DataCache.get, hfind]
        rw [if_neg hexp]
  · exact mapFind_filter_or c _ k hnd

/-- Witness for the cache theorem with an integer cache, key `'users'`,
value 7, a set at time 0 with a 5-minute expiry (so expiry time 300000 ms),
a hit at 300000 and a miss at 300001. -/
theorem dataCache_expiry_semantics_witness :
    (DataCache.get (DataCache.set ([] : DataCache.Cache Int) "users" 7 0 5)
        "users" 300000).1 = some 7
    ∧ (DataCache.get (DataCache.set ([] : DataCache.Cache Int) "users" 7 0 5)
        "users" 300001).1 = none
    ∧ DataCache.get ([] : DataCache.Cache Int) "users" 42
        = (none, ([] : DataCache.Cache Int)) :=
  ⟨(dataCache_expiry_semantics [] (by simp) "users" 7 0 5 300000).1 (by decide),
    ((dataCache_expiry_semantics [] (by simp) "users" 7 0 5 300001).2.1 (by decide)).1,
    (dataCache_expiry_semantics [] (by simp) "users" 7 0 5 42).2.2.1 rfl⟩

/-! ### Sign-in flows

`AuthProvider.signIn` from `src/App.tsx` lines 91–146 and
`AuthService.signIn` from `src/unnamed/part_003` lines 74–107.  Both are
modelled from the point where the external auth service has accepted the
credentials and set `auth.currentUser` to the user's uid; the profiles
collection is passed as an explicit uid-keyed list.  Only the observables
the claims speak about are kept: the returned outcome and the auth session
afterwards. -/

/-- Profile lookup by uid (the Firestore `users/{uid}` read). -/
def lookupProfile : List (String × Profile) → String → Option Profile
  | [], _ => none
  | (u, p) :: rest, uid => if u = uid then some p else lookupProfile rest uid

/-- Outcome of a sign-in call together with the auth session it leaves
behind (`auth.currentUser`, `some uid` when a session is retained). -/
structure SignInOutcome where
  outcome : Except String String
  session : Option String

namespace AuthProvider

/-- `signIn` in `App.tsx`: fetch the profile document; if it is missing,
sign out and return an error; if its status is not `'active'`, sign out and
return an error; otherwise return the signed-in user. -/
def signIn (db : List (String × Profile)) (uid : String) : SignInOutcome :=
  match lookupProfile db uid with
  | none =>
    ⟨Except.error "User profile not found. Please contact an administrator.", none⟩
  | some p =>
    if p.status = UserStatus.active then ⟨Except.ok uid, some uid⟩
    else ⟨Except.error "Your account is inactive. Please contact an administrator.", none⟩

end AuthProvider

namespace AuthService

/-- `AuthService.signIn`: a missing profile throws `'User profile not found'`
without any `signOut` call, so the session set by
`signInWithEmailAndPassword` stays; a non-active profile signs out and
throws; an active profile is returned (the `updateLastActive` write and the
`handleAuthError` rethrow do not change these observables). -/
def signIn (db : List (String × Profile)) (uid : String) : SignInOutcome :=
  match lookupProfile db uid with
  | none => ⟨Except.error "User profile not found", some uid⟩
  | some p =>
    if p.status ≠ UserStatus.active then
      ⟨Except.error "Your account is inactive. Please contact an administrator.", none⟩
    else ⟨Except.ok uid, some uid⟩

end AuthService

/-- C9 counterexample: with no profile document for uid `'u1'`,
`AuthService.signIn` yields the profile-not-found error but leaves the
Firebase session in place — the user is not signed back out, contradicting
the claim that a missing profile always ends with no session retained. -/
theorem authService_missing_profile_keeps_session :
    (AuthService.signIn [] "u1").outcome = Except.error "User profile not found"
    ∧ (AuthService.signIn [] "u1").session = some "u1"
    ∧ (AuthService.signIn [] "u1").session ≠ none := by
  refine ⟨rfl, rfl, by decide⟩

/-- C9 amended: both sign-in flows return the signed-in user exactly when a
profile document exists whose status is `'active'`; the `App.tsx` flow
retains a session exactly when it succeeds, and both flows sign the user
back out on an existing non-active profile — but on a missing profile only
the `App.tsx` flow signs out, while `AuthService.signIn` errors with the
session still in place. -/
theorem signIn_active_profile_amended (db : List (String × Profile)) (uid : String) :
    ((AuthProvider.signIn db uid).outcome = Except.ok uid ↔
      ∃ p, lookupProfile db uid = some p ∧ p.status = UserStatus.active)
    ∧ ((AuthService.signIn db uid).outcome = Except.ok uid ↔
      ∃ p, lookupProfile db uid = some p ∧ p.status = UserStatus.active)
    ∧ ((AuthProvider.signIn db uid).outcome = Except.ok uid ↔
      (AuthProvider.signIn db uid).session = some uid)
    ∧ (∀ p, lookupProfile db uid = some p → p.status ≠ UserStatus.active →
        (AuthProvider.signIn db uid).session = none
          ∧ (AuthService.signIn db uid).session = none)
    ∧ (lookupProfile db uid = none →
        (AuthProvider.signIn db uid).session = none
          ∧ (AuthService.signIn db uid).session = some uid) := by
  cases hlook : lookupProfile db uid with
  | none =>
    refine ⟨?_, ?_, ?_, ?_, ?_⟩ <;>
      simp [AuthProvider.signIn, AuthService.signIn, hlook]
  | some p =>
    by_cases hst : p.status = UserStatus.active <;>
      refine ⟨?_, ?_, ?_, ?_, ?_⟩ <;>
      simp_all [AuthProvider.signIn, AuthService.signIn, hlook, hst]

/-- Profiles used by the sign-in witness: an inactive `'u2'` and an active
`'u3'`. -/
def sampleDb : List (String × Profile) :=
  [("u2", ⟨"u2", "Bob", "b@riceshop.test", Role.cashier, UserStatus.inactive, "t"⟩),
    ("u3", ⟨"u3", "Carol", "c@riceshop.test", Role.admin, UserStatus.active, "t"⟩)]

/-- Witness for the amended sign-in theorem: success for the active `'u3'`,
sign-out on the inactive `'u2'` in both flows, and the divergent behavior on
the missing `'u1'`. -/
theorem signIn_active_profile_amended_witness :
    (AuthProvider.signIn sampleDb "u3").outcome = Except.ok "u3"
    ∧ ((AuthProvider.signIn sampleDb "u2").session = none
      ∧ (AuthService.signIn sampleDb "u2").session = none)
    ∧ ((AuthProvider.signIn [] "u1").session = none
      ∧ (AuthService.signIn [] "u1").session = some "u1") :=
  ⟨(signIn_active_profile_amended sampleDb "u3").1.mpr
      ⟨⟨"u3", "Carol", "c@riceshop.test", Role.admin, UserStatus.active, "t"⟩,
        by decide, rfl⟩,
    (signIn_active_profile_amended sampleDb "u2").2.2.2.1
      ⟨"u2", "Bob", "b@riceshop.test", Role.cashier, UserStatus.inactive, "t"⟩
      (by decide) (by decide),
    (signIn_active_profile_amended [] "u1").2.2.2.2 rfl⟩

/-- One-transaction history with a single item used by the top-lists
witness: cashier Alice sells two bags of rice at 50 each. -/
def txWithItems : Transaction :=
  { id := "t1", cashierId := "c1", cashierName := "Alice",
    items := [⟨"p1", "Rice 5kg", 2, 50, "bag"⟩], total := 100,
    paymentMethod := PaymentMethod.cash, timestamp := ⟨2024, 0, ""⟩,
    status := TxStatus.completed }

/-- Witness for the top-lists theorem on the concrete one-transaction
history: the product list is within the cap and the listed revenues equal
the grouped sums. -/
theorem topLists_sorted_and_truncated_witness :
    (AnalyticsService.calculateTopProducts [txWithItems]).length ≤ 5
    ∧ (100 : Int) = revenueOfName [txWithItems] "Rice 5kg"
    ∧ (100 : Int) = revenueOfCashier [txWithItems] "Alice" :=
  ⟨(topLists_sorted_and_truncated [txWithItems]).1,
    (topLists_sorted_and_truncated [txWithItems]).2.2.1 ("Rice 5kg", 100) (by decide),
    (topLists_sorted_and_truncated [txWithItems]).2.2.2.2.2.2 ("Alice", 100) (by decide)⟩
